import Mathlib

/-!
Verification of the auction ledger and settlement engine of `cogs/auctions.py`
(class `AuctionSystem`).  The Python state (the JSON document plus the in-memory
task table) is embedded as `SysState`; dictionaries become association lists
with Python-dict update semantics (replace in place, append new keys at the
end).  Timestamps are modelled as naturals (only their ordering matters to the
properties below).  The float expression `math.ceil(last_bid * 1.10)` from
`min_required_after` is modelled exactly: `1.10` is the IEEE-754 double
`4953959590107546 / 2^52` and each multiplication result is rounded to 53
significant bits with round-half-to-even, which is precisely what CPython's
float multiplication does for the inputs reachable here (integers below the
overflow range).
-/

namespace AuctionCog

/-- `STARTING_COINS` from cogs/auctions.py. -/
def STARTING_COINS : Int := 1000

/-- `DEFAULT_MIN_BID` from cogs/auctions.py. -/
def DEFAULT_MIN_BID : Nat := 10

/-- The integer significand of the IEEE-754 double nearest to 1.1:
the literal `1.10` in the source denotes the real number `d_num / 2^52`. -/
def d_num : Nat := 4953959590107546

/-- Number of halvings needed to bring `n` below `2^53` (first argument is
fuel, always called with `fuel = n`, which is ample). -/
def halvings : Nat → Nat → Nat
  | 0, _ => 0
  | f + 1, n => if n < 2 ^ 53 then 0 else halvings f (n / 2) + 1

/-- For `N ≥ 2^53`, the number of low bits that must be dropped to round the
integer `N` to 53 significant bits. -/
def s53 (N : Nat) : Nat := halvings N N

/-- Round the integer `N` to a multiple of `2^s`, half to even (the parity of
the quotient decides ties). -/
def rnd53Aux (N s : Nat) : Nat :=
  if N % 2 ^ s < 2 ^ (s - 1) then N / 2 ^ s * 2 ^ s
  else if 2 ^ (s - 1) < N % 2 ^ s then (N / 2 ^ s + 1) * 2 ^ s
  else if (N / 2 ^ s) % 2 = 0 then N / 2 ^ s * 2 ^ s
  else (N / 2 ^ s + 1) * 2 ^ s

/-- Round a nonnegative integer to the nearest IEEE-754 double
(round-half-to-even); the result of converting a Python int to float. -/
def rnd53 (N : Nat) : Nat :=
  if N < 2 ^ 53 then N else rnd53Aux N (s53 N)

/-- Exact value, scaled by `2^52`, of the Python float product `x * 1.10`
for a nonnegative int `x`: convert `x` to double, multiply by the double
`1.10`, and round the product to double precision again. -/
def pyMul11 (x : Nat) : Nat := rnd53 (rnd53 x * d_num)

/-- `math.ceil(x * 1.10)` as computed by the source for a nonnegative int
`x`: the exact ceiling of the double product. -/
def pyCeilMul11 (x : Nat) : Nat := (pyMul11 x + (2 ^ 52 - 1)) / 2 ^ 52

/-- `min_required_after` from cogs/auctions.py:
no last bid means the floor is `min_bid`, otherwise `ceil(last_bid * 1.10)`
computed in double precision. -/
def min_required_after (last_bid min_bid : Nat) : Nat :=
  if last_bid = 0 then min_bid else pyCeilMul11 last_bid

lemma halvings_of_lt (f n : Nat) (h : n < 2 ^ 53) : halvings f n = 0 := by
  cases f with
  | zero => rfl
  | succ f =>
    simp only [halvings]
    rw [if_pos h]

lemma halvings_spec : ∀ f n, n ≤ f → 2 ^ 53 ≤ n →
    2 ^ (halvings f n + 52) ≤ n ∧ n < 2 ^ (halvings f n + 53) := by
  intro f
  induction f with
  | zero =>
    intro n hnf h53
    have hp : (0:Nat) < 2 ^ 53 := Nat.two_pow_pos 53
    omega
  | succ f ih =>
    intro n hnf h53
    have hnot : ¬ n < 2 ^ 53 := not_lt.mpr h53
    simp only [halvings]
    rw [if_neg hnot]
    have hdm := Nat.div_add_mod n 2
    have h2 : (2:Nat) ^ 53 = 9007199254740992 := by norm_num
    by_cases hc : 2 ^ 53 ≤ n / 2
    · have hle : n / 2 ≤ f := by
        rw [h2] at h53
        omega
      obtain ⟨ih1, ih2⟩ := ih (n / 2) hle hc
      constructor
      · have he : 2 ^ (halvings f (n / 2) + 1 + 52) = 2 ^ (halvings f (n / 2) + 52) * 2 := by
          ring
        rw [he]
        omega
      · have he : 2 ^ (halvings f (n / 2) + 1 + 53) = 2 ^ (halvings f (n / 2) + 53) * 2 := by
          ring
        rw [he]
        omega
    · have hc2 : n / 2 < 2 ^ 53 := not_le.mp hc
      rw [halvings_of_lt f (n / 2) hc2]
      rw [h2] at h53 hc2
      norm_num
      omega

lemma s53_spec (N : Nat) (h : 2 ^ 53 ≤ N) :
    2 ^ (s53 N + 52) ≤ N ∧ N < 2 ^ (s53 N + 53) := by
  exact halvings_spec N N (le_refl N) h

lemma s53_pos (N : Nat) (h : 2 ^ 53 ≤ N) : 1 ≤ s53 N := by
  by_contra hc
  have h0 : s53 N = 0 := by omega
  obtain ⟨_, hup⟩ := s53_spec N h
  rw [h0] at hup
  have h2 : (2:Nat) ^ (0 + 53) = 2 ^ 53 := by norm_num
  rw [h2] at hup
  omega

lemma rnd53Aux_bounds (N s D : Nat) (hs1 : 1 ≤ s) (hhd : 2 ^ (s - 1) ≤ D) :
    N ≤ rnd53Aux N s + D ∧ rnd53Aux N s ≤ N + D := by
  have hps : (2:Nat) ^ s = 2 ^ (s - 1) * 2 := by
    rw [← pow_succ]
    congr 1
    omega
  have hdm : 2 ^ s * (N / 2 ^ s) + N % 2 ^ s = N := Nat.div_add_mod N (2 ^ s)
  have hmlt : N % 2 ^ s < 2 ^ s := Nat.mod_lt N (Nat.two_pow_pos _)
  unfold rnd53Aux
  rw [Nat.add_mul, one_mul]
  rw [mul_comm (2 ^ s) (N / 2 ^ s)] at hdm
  generalize hM : N / 2 ^ s = M at hdm ⊢
  generalize hr : N % 2 ^ s = r at hdm hmlt ⊢
  generalize hhb : 2 ^ (s - 1) = hb at hhd hps ⊢
  generalize hE : 2 ^ s = E at hdm hmlt hps ⊢
  generalize hQ : M * E = Q at hdm ⊢
  split_ifs <;> omega

/-- Rounding to 53 significant bits moves the value by at most a
`2^{-53}` fraction, in both directions. -/
lemma rnd53_bounds (N : Nat) :
    N ≤ rnd53 N + N / 2 ^ 53 ∧ rnd53 N ≤ N + N / 2 ^ 53 := by
  unfold rnd53
  by_cases hlt : N < 2 ^ 53
  · rw [if_pos hlt]
    omega
  · rw [if_neg hlt]
    have h53 : 2 ^ 53 ≤ N := not_lt.mp hlt
    have hs1 : 1 ≤ s53 N := s53_pos N h53
    obtain ⟨hlow, _⟩ := s53_spec N h53
    have hsplit : (2:Nat) ^ (s53 N + 52) = 2 ^ (s53 N - 1) * 2 ^ 53 := by
      rw [← pow_add]
      congr 1
      omega
    have hhd : 2 ^ (s53 N - 1) ≤ N / 2 ^ 53 := by
      rw [Nat.le_div_iff_mul_le (Nat.two_pow_pos 53), ← hsplit]
      exact hlow
    exact rnd53Aux_bounds N (s53 N) (N / 2 ^ 53) hs1 hhd

/-- The double product `x * 1.10` is at least `x` (scaled by `2^52`): the two
roundings lose relatively less than the 10% gained by the factor. -/
lemma pyMul11_ge (x : Nat) : x * 2 ^ 52 ≤ pyMul11 x := by
  have hA := rnd53_bounds x
  have hF := rnd53_bounds (rnd53 x * d_num)
  have hxd : x / 2 ^ 53 * 2 ^ 53 ≤ x := Nat.div_mul_le_self _ _
  have hPd : rnd53 x * d_num / 2 ^ 53 * 2 ^ 53 ≤ rnd53 x * d_num :=
    Nat.div_mul_le_self _ _
  have h52 : (2:Nat) ^ 52 = 4503599627370496 := by norm_num
  have h53 : (2:Nat) ^ 53 = 9007199254740992 := by norm_num
  unfold pyMul11
  unfold d_num at *
  omega

/-- `math.ceil(x * 1.10)` computed by the source is at least `x`. -/
lemma pyCeilMul11_ge (x : Nat) : x ≤ pyCeilMul11 x := by
  have h := pyMul11_ge x
  unfold pyCeilMul11
  rw [Nat.le_div_iff_mul_le (Nat.two_pow_pos 52)]
  have h52 : (2:Nat) ^ 52 = 4503599627370496 := by norm_num
  omega

/-- The required next bid is never below the standing amount. -/
lemma min_required_after_ge (last_bid min_bid : Nat) :
    last_bid ≤ min_required_after last_bid min_bid := by
  unfold min_required_after
  by_cases h : last_bid = 0
  · simp [h]
  · rw [if_neg h]
    exact pyCeilMul11_ge last_bid

/-! ## Data model

The `top_bid` entry of an auction: `{"user_id": ..., "amount": ..., "ts": ...}`. -/

structure TopBid where
  user_id : Nat
  amount : Nat
  ts : Nat
  deriving DecidableEq, Repr

/-- One inventory entry, as appended by `add_inventory`:
`{"pokemon": ..., "unique_id": ..., "received_ts": ...}`. -/
structure ItemGrant where
  pokemon : String
  unique_id : Nat
  received_ts : Nat
  deriving DecidableEq, Repr

/-- An auction record, exactly the dict built by `auction_start` /
`_create_auctions_for_names`. -/
structure Auction where
  auction_id : Nat
  pokemon : String
  unique_id : Nat
  created_by : Nat
  created_ts : Nat
  end_ts : Nat
  min_bid : Nat
  top_bid : Option TopBid
  bids_received : Nat
  channel_id : Nat
  is_closed : Bool
  deriving DecidableEq, Repr

/-- Status of an `asyncio.Task` in `self.tasks`:
`running` (scheduled, `done()` is false), `done` (finished), or
`cancelled` (`cancel()` was called). -/
inductive TaskStatus where
  | running
  | done
  | cancelled
  deriving DecidableEq, Repr

/-- `task.done()`: true once the task has finished or been cancelled. -/
def taskDone : TaskStatus → Bool
  | TaskStatus.running => false
  | TaskStatus.done => true
  | TaskStatus.cancelled => true

/-- Python dict lookup (`d.get(k)`), over an insertion-ordered association
list with `Nat` keys (the source keys dicts by `str(id)`, an injective image
of the integer ids). -/
def lookupKV {α : Type} : List (Nat × α) → Nat → Option α
  | [], _ => none
  | (k0, v0) :: rest, k => if k0 = k then some v0 else lookupKV rest k

/-- Python dict assignment (`d[k] = v`): replace in place if the key exists,
else append at the end. -/
def setKV {α : Type} : List (Nat × α) → Nat → α → List (Nat × α)
  | [], k, v => [(k, v)]
  | (k0, v0) :: rest, k, v =>
    if k0 = k then (k0, v) :: rest else (k0, v0) :: setKV rest k v

lemma lookupKV_setKV_self {α : Type} (l : List (Nat × α)) (k : Nat) (v : α) :
    lookupKV (setKV l k v) k = some v := by
  induction l with
  | nil => simp [setKV, lookupKV]
  | cons p rest ih =>
    obtain ⟨k0, v0⟩ := p
    by_cases h : k0 = k
    · simp [setKV, h, lookupKV]
    · simp [setKV, h, lookupKV, ih]

lemma lookupKV_setKV_ne {α : Type} (l : List (Nat × α)) (k k2 : Nat) (v : α)
    (h : k ≠ k2) : lookupKV (setKV l k v) k2 = lookupKV l k2 := by
  induction l with
  | nil => simp [setKV, lookupKV, h]
  | cons p rest ih =>
    obtain ⟨k0, v0⟩ := p
    by_cases h0 : k0 = k
    · subst h0
      simp [setKV, lookupKV, h]
    · simp only [setKV, if_neg h0, lookupKV]
      by_cases h2 : k0 = k2
      · simp [h2]
      · simp [h2, ih]

/-- The whole mutable state of `AuctionSystem`: the persisted JSON document
(`self.data`, with its five top-level keys) together with the in-memory task
table `self.tasks`.  `save_data` writes the document to disk and is modelled
as the identity on this in-memory state, which stays authoritative. -/
structure SysState where
  coins : List (Nat × Int)
  inventory : List (Nat × List ItemGrant)
  auctions : List (Nat × Auction)
  next_aid : Nat
  banned : List Nat
  tasks : List (Nat × TaskStatus)
  deriving DecidableEq, Repr

/-- `get_balance`: stored balance, or `STARTING_COINS` for an unseen user. -/
def get_balance (s : SysState) (user_id : Nat) : Int :=
  match lookupKV s.coins user_id with
  | some b => b
  | none => STARTING_COINS

/-- `add_balance`: unconditionally store `get_balance + delta` (there is no
negativity check in the source) and save. -/
def add_balance (s : SysState) (user_id : Nat) (delta : Int) : SysState :=
  { s with coins := setKV s.coins user_id (get_balance s user_id + delta) }

/-- `get_inventory`. -/
def get_inventory (s : SysState) (user_id : Nat) : List ItemGrant :=
  match lookupKV s.inventory user_id with
  | some l => l
  | none => []

/-- `add_inventory`: append one grant with the current timestamp and save. -/
def add_inventory (s : SysState) (user_id : Nat) (pokemon : String)
    (unique_id : Nat) (now : Nat) : SysState :=
  { s with inventory :=
      setKV s.inventory user_id (get_inventory s user_id ++ [⟨pokemon, unique_id, now⟩]) }

/-- `get_auction`. -/
def get_auction (s : SysState) (auction_id : Nat) : Option Auction :=
  lookupKV s.auctions auction_id

/-- `save_auction`: store under the key `auc["auction_id"]` and save. -/
def save_auction (s : SysState) (auc : Auction) : SysState :=
  { s with auctions := setKV s.auctions auc.auction_id auc }

/-- `active_auctions`: the auctions whose `is_closed` flag is not set, in
dict insertion order. -/
def active_auctions (s : SysState) : List Auction :=
  (s.auctions.map Prod.snd).filter (fun a => !a.is_closed)

/-- The comparison key of `auction_list`: ascending `end_ts`. -/
def aucLE (a b : Auction) : Prop := a.end_ts ≤ b.end_ts

instance : DecidableRel aucLE := fun a b => Nat.decLe a.end_ts b.end_ts

instance : IsTotal Auction aucLE := ⟨fun a b => Nat.le_total a.end_ts b.end_ts⟩

instance : IsTrans Auction aucLE := ⟨fun _ _ _ h1 h2 => Nat.le_trans h1 h2⟩

/-- The ordered listing built by the `auction_list` command:
`sorted(self.active_auctions(), key=lambda a: float(a["end_ts"]))`.
Python's sort is a stable comparison sort, as is `insertionSort`. -/
def auction_list (s : SysState) : List Auction :=
  (active_auctions s).insertionSort aucLE

/-! ## Settlement, scheduler, cancellation -/

/-- `settle_auction` (without its notification I/O, which never mutates the
ledger): mark the record closed, save it, and if a top bid stands, award the
item to that bidder's inventory.  Note that the source does NOT check
`is_closed` before doing any of this. -/
def settle_auction (s : SysState) (auc : Auction) (now : Nat) : SysState :=
  let s1 := save_auction s { auc with is_closed := true }
  match auc.top_bid with
  | some t => add_inventory s1 t.user_id auc.pokemon auc.unique_id now
  | none => s1

/-- Look the auction up and settle it, the way every call site obtains the
dict it passes to `settle_auction` (no `is_closed` guard here). -/
def settleById (s : SysState) (auction_id : Nat) (now : Nat) : SysState :=
  match get_auction s auction_id with
  | some auc => settle_auction s auc now
  | none => s

/-- The body of `_wait_and_close` once the sleep has elapsed: re-fetch the
auction, give up if it is gone or already closed, otherwise settle. -/
def waitCloseFire (s : SysState) (auction_id : Nat) (now : Nat) : SysState :=
  match get_auction s auction_id with
  | none => s
  | some auc => if auc.is_closed then s else settle_auction s auc now

/-- `t = self.tasks.get(id); if t and not t.done(): t.cancel()`. -/
def cancelTask (ts : List (Nat × TaskStatus)) (auction_id : Nat) :
    List (Nat × TaskStatus) :=
  match lookupKV ts auction_id with
  | some st => if taskDone st then ts else setKV ts auction_id TaskStatus.cancelled
  | none => ts

/-- Result of the admin `auction_close` command. -/
inductive CloseOutcome where
  | notFound
  | alreadyClosed
  | closed
  deriving DecidableEq, Repr

/-- `auction_close`: refuse when missing or already closed; otherwise cancel
the pending timer and settle. -/
def auction_close (s : SysState) (auction_id : Nat) (now : Nat) :
    CloseOutcome × SysState :=
  match get_auction s auction_id with
  | none => (CloseOutcome.notFound, s)
  | some auc =>
    if auc.is_closed then (CloseOutcome.alreadyClosed, s)
    else
      (CloseOutcome.closed,
        settle_auction { s with tasks := cancelTask s.tasks auction_id } auc now)

/-- Result of the admin `auction_cancel` command. -/
inductive CancelOutcome where
  | notFound
  | alreadyClosed
  | cancelled
  deriving DecidableEq, Repr

/-- `auction_cancel`: refuse when missing or already closed; otherwise refund
the standing top bid, mark the auction closed, save, and cancel the pending
timer.  No item is ever granted here. -/
def auction_cancel (s : SysState) (auction_id : Nat) : CancelOutcome × SysState :=
  match get_auction s auction_id with
  | none => (CancelOutcome.notFound, s)
  | some auc =>
    if auc.is_closed then (CancelOutcome.alreadyClosed, s)
    else
      let s1 := match auc.top_bid with
        | some t => add_balance s t.user_id (t.amount : Int)
        | none => s
      let s2 := save_auction s1 { auc with is_closed := true }
      (CancelOutcome.cancelled, { s2 with tasks := cancelTask s2.tasks auction_id })

/-- `aid in self.tasks and not self.tasks[aid].done()`: a live timer exists. -/
def taskLive (ts : List (Nat × TaskStatus)) (auction_id : Nat) : Bool :=
  match lookupKV ts auction_id with
  | some st => !taskDone st
  | none => false

/-- One iteration of the `recover_tasks` loop: arm a timer for an auction
that is not closed, whose end time is still ahead, and that has no live task
yet (`aid not in self.tasks or self.tasks[aid].done()`). -/
def recoverStep (cur : Nat) (ts : List (Nat × TaskStatus)) (e : Nat × Auction) :
    List (Nat × TaskStatus) :=
  if e.2.is_closed = false ∧ cur < e.2.end_ts ∧ taskLive ts e.2.auction_id = false then
    setKV ts e.2.auction_id TaskStatus.running
  else ts

/-- `recover_tasks`, run at `__init__` with the current clock `cur`: walk the
persisted auctions and re-arm timers.  Nothing else in the state is touched;
in particular no overdue auction is settled. -/
def recover_tasks (s : SysState) (cur : Nat) : SysState :=
  { s with tasks := s.auctions.foldl (recoverStep cur) s.tasks }

/-! ## The bidding engine -/

/-- Result reported by the `auction_bid` command. -/
inductive BidOutcome where
  | invalidAmount
  | bannedUser
  | invalidOrClosed
  | tooLow (required : Nat)
  | insufficient
  | accepted (prev : Option (Nat × Nat)) (amount : Nat)
  deriving DecidableEq, Repr

/-- The standing top amount, `int(top["amount"]) if top else 0`. -/
def currentAmt (auc : Auction) : Nat :=
  match auc.top_bid with
  | some t => t.amount
  | none => 0

/-- The mutation path of an accepted bid: refund the previous top bidder if
any, escrow the new amount, install the new `top_bid`, bump `bids_received`,
save. -/
def applyBid (s : SysState) (bidder : Nat) (auc : Auction) (amount : Int)
    (now : Nat) : BidOutcome × SysState :=
  let s1 := match auc.top_bid with
    | some t => add_balance s t.user_id (t.amount : Int)
    | none => s
  let s2 := add_balance s1 bidder (-amount)
  let s3 := save_auction s2 { auc with
    top_bid := some ⟨bidder, amount.toNat, now⟩,
    bids_received := auc.bids_received + 1 }
  (BidOutcome.accepted (auc.top_bid.map (fun t => (t.user_id, t.amount))) amount.toNat, s3)

/-- `auction_bid`, checks in source order: positive amount, not banned,
auction exists and is open, minimum-increment rule, affordability; then the
mutation.  Every rejection leaves the state untouched. -/
def auction_bid (s : SysState) (bidder : Nat) (auction_id : Nat)
    (amount : Int) (now : Nat) : BidOutcome × SysState :=
  if amount ≤ 0 then (BidOutcome.invalidAmount, s)
  else if bidder ∈ s.banned then (BidOutcome.bannedUser, s)
  else
    match get_auction s auction_id with
    | none => (BidOutcome.invalidOrClosed, s)
    | some auc =>
      if auc.is_closed then (BidOutcome.invalidOrClosed, s)
      else if amount < (min_required_after (currentAmt auc) auc.min_bid : Int) then
        (BidOutcome.tooLow (min_required_after (currentAmt auc) auc.min_bid), s)
      else if get_balance s bidder < amount then (BidOutcome.insufficient, s)
      else applyBid s bidder auc amount now

/-- True exactly on the accepted outcome. -/
def BidOutcome.isAccepted : BidOutcome → Bool
  | BidOutcome.accepted _ _ => true
  | _ => false

/-! ## Basic lemmas about the state operations -/

lemma get_balance_add_balance_self (s : SysState) (u : Nat) (delta : Int) :
    get_balance (add_balance s u delta) u = get_balance s u + delta := by
  conv_lhs => rw [get_balance, add_balance]
  rw [lookupKV_setKV_self]

lemma get_balance_add_balance_ne (s : SysState) (u w : Nat) (delta : Int)
    (h : u ≠ w) : get_balance (add_balance s u delta) w = get_balance s w := by
  conv_lhs => rw [get_balance, add_balance]
  rw [lookupKV_setKV_ne _ _ _ _ h]
  rfl

lemma get_inventory_add_inventory_self (s : SysState) (u : Nat) (pokemon : String)
    (unique_id now : Nat) :
    get_inventory (add_inventory s u pokemon unique_id now)  u
      = get_inventory s u ++ [⟨pokemon, unique_id, now⟩] := by
  conv_lhs => rw [get_inventory, add_inventory]
  rw [lookupKV_setKV_self]

lemma taskLive_eq_true_iff (ts : List (Nat × TaskStatus)) (aid : Nat) :
    taskLive ts aid = true ↔ lookupKV ts aid = some TaskStatus.running := by
  unfold taskLive
  cases h : lookupKV ts aid with
  | none => simp
  | some st => cases st <;> simp [taskDone]

lemma taskLive_cancelTask (ts : List (Nat × TaskStatus)) (aid : Nat) :
    taskLive (cancelTask ts aid) aid = false := by
  unfold cancelTask
  cases h : lookupKV ts aid with
  | none => simp [taskLive, h]
  | some st =>
    dsimp only
    by_cases hd : taskDone st = true
    · rw [if_pos hd]
      simp [taskLive, h, hd]
    · rw [if_neg hd]
      simp [taskLive, lookupKV_setKV_self, taskDone]

/-! ## Concrete fixtures used by witnesses and counterexamples -/

/-- A freshly created open auction with `min_bid = 10` and no bids. -/
def exOpenAuc : Auction :=
  { auction_id := 1, pokemon := "Gholdengo", unique_id := 1, created_by := 9,
    created_ts := 0, end_ts := 1000, min_bid := 10, top_bid := none,
    bids_received := 0, channel_id := 0, is_closed := false }

/-- A state holding only auction #1, with no account rows yet (every user is
at the starting balance of 1000). -/
def exState : SysState :=
  { coins := [], inventory := [], auctions := [(1, exOpenAuc)],
    next_aid := 11500, banned := [], tasks := [] }

/-- The state after user 7 bids 50 on auction #1 of `exState`. -/
def exStateA : SysState := (auction_bid exState 7 1 50 10).2

/-- A state whose only content is a ban on user 7. -/
def exBanState : SysState :=
  { coins := [], inventory := [], auctions := [], next_aid := 11500,
    banned := [7], tasks := [] }

/-- An empty ledger. -/
def exEmpty : SysState :=
  { coins := [], inventory := [], auctions := [], next_aid := 11500,
    banned := [], tasks := [] }

/-- Claim C6 (corrected).  `add_balance(id, delta)` stores
`get_balance(id) + delta` for every `delta`, including when the result is
negative: the source has no negativity check, raises nothing, and leaves the
negative balance in the ledger. -/
theorem claim_C6_amended (s : SysState) (user_id : Nat) (delta : Int) :
    get_balance (add_balance s user_id delta) user_id
      = get_balance s user_id + delta :=
  get_balance_add_balance_self s user_id delta

/-- Counterexample to claim C6 as stated: driving a fresh account (balance
1000) down by 2000 does not fail and does not leave the balance unchanged —
the stored balance becomes -1000. -/
theorem claim_C6_counterexample :
    get_balance (add_balance exEmpty 7 (-2000)) 7 = -1000 ∧
    get_balance exEmpty 7 = 1000 := by
  decide

/-- Claim C5 (corrected).  A banned user's bid with a positive amount is
rejected as `Banned` no matter what the auction state is — even for an
auction id that does not exist — because the ban check precedes the auction
lookup.  (The amount-positivity check, however, precedes the ban check.) -/
theorem claim_C5_amended (s : SysState) (bidder auction_id : Nat)
    (amount : Int) (now : Nat) (hban : bidder ∈ s.banned) (hpos : 0 < amount) :
    auction_bid s bidder auction_id amount now = (BidOutcome.bannedUser, s) := by
  unfold auction_bid
  rw [if_neg (by omega), if_pos hban]

/-- Witness for C5: user 7 is banned and bids 50 on the nonexistent auction
999; the bid is rejected as `Banned` with the state untouched. -/
theorem claim_C5_witness :
    auction_bid exBanState 7 999 50 0 = (BidOutcome.bannedUser, exBanState) :=
  claim_C5_amended exBanState 7 999 50 0 (by decide) (by decide)

/-- Counterexample to claim C5 as stated: a banned user bidding a non-positive
amount is rejected as `InvalidAmount`, not `Banned` — the amount check runs
first. -/
theorem claim_C5_counterexample :
    (auction_bid exBanState 7 999 0 0).1 = BidOutcome.invalidAmount ∧
    BidOutcome.invalidAmount ≠ BidOutcome.bannedUser := by
  decide

/-- Claim C3 (corrected).  For an open auction, a positive bid below
`required` from a non-banned user is rejected as too low, reporting exactly
`required = min_required_after(current, min_bid)`, and the state is left
untouched.  `required` is `min_bid` with no prior bid, and otherwise the
ceiling of the DOUBLE-PRECISION product `prior * 1.10` — which matches the
exact `ceil(prior * 1.1)` at 10 (next bid 11) but not everywhere: after a
prior bid of 50 the code requires 56, not 55. -/
theorem claim_C3_amended :
    (∀ (s : SysState) (bidder auction_id : Nat) (amount : Int) (now : Nat)
        (auc : Auction),
      get_auction s auction_id = some auc → auc.is_closed = false →
      0 < amount → bidder ∉ s.banned →
      amount < (min_required_after (currentAmt auc) auc.min_bid : Int) →
      auction_bid s bidder auction_id amount now =
        (BidOutcome.tooLow (min_required_after (currentAmt auc) auc.min_bid), s)) ∧
    min_required_after 0 10 = 10 ∧
    min_required_after 10 10 = 11 ∧
    min_required_after 50 10 = 56 := by
  refine ⟨?_, by decide, by decide, by decide⟩
  intro s bidder auction_id amount now auc hga hcl hpos hban hlt
  unfold auction_bid
  rw [if_neg (by omega), if_neg hban, hga]
  dsimp only
  rw [hcl]
  rw [if_neg (by simp), if_pos hlt]

/-- Witness for C3: on the fresh auction #1 (min_bid 10, no bids) a bid of 9
by user 7 is rejected, reporting the required minimum computed by the code. -/
theorem claim_C3_witness :
    auction_bid exState 7 1 9 0 =
      (BidOutcome.tooLow (min_required_after (currentAmt exOpenAuc) exOpenAuc.min_bid),
        exState) :=
  claim_C3_amended.1 exState 7 1 9 0 exOpenAuc (by decide) (by decide) (by decide)
    (by decide) (by decide)

/-- Counterexample to claim C3 as stated: after a prior bid of 50 the code
requires 56, because the double product `50 * 1.1` is
55.00000000000001; the exact `ceil(50 * 1.1) = (50*11+9)/10 = 55` of the
claim is not what the code computes. -/
theorem claim_C3_counterexample :
    min_required_after 50 10 = 56 ∧
    min_required_after 50 10 ≠ (50 * 11 + 9) / 10 ∧
    (50 * 11 + 9) / 10 = 55 := by
  decide

/-- The state after user 8 bids 60 on auction #1 of `exStateA`. -/
def exStateB : SysState := (auction_bid exStateA 8 1 60 12).2

/-- `get_balance` only depends on the coins table, which `save_auction`
leaves alone. -/
lemma get_balance_save_auction (s : SysState) (auc : Auction) (u : Nat) :
    get_balance (save_auction s auc) u = get_balance s u := rfl

lemma get_auction_save_auction_self (s : SysState) (auc : Auction) :
    get_auction (save_auction s auc) auc.auction_id = some auc :=
  lookupKV_setKV_self s.auctions auc.auction_id auc

lemma get_balance_set_tasks (s : SysState) (ts : List (Nat × TaskStatus)) (u : Nat) :
    get_balance { s with tasks := ts } u = get_balance s u := rfl

lemma get_auction_set_tasks (s : SysState) (ts : List (Nat × TaskStatus)) (aid : Nat) :
    get_auction { s with tasks := ts } aid = get_auction s aid := rfl

/-- The updated record installed by an accepted bid. -/
def bidUpdatedAuc (auc : Auction) (bidder amtN now : Nat) : Auction :=
  { auc with top_bid := some ⟨bidder, amtN, now⟩, bids_received := auc.bids_received + 1 }

/-- Claim C4 (corrected).  General accepted-bid effects: when a bid passes
all checks, the previous top bidder (if distinct) is refunded exactly the
previous amount, the new bidder is debited exactly the bid amount, the
record gets the new `top_bid` and `bids_received + 1`.  Concretely from
starting balances of 1000: A=7 bids 50 (accepted; A at 950, top={A,50}),
B=8 bids 54 (rejected — but reporting required 56, not the claim's 55),
B bids 60 (accepted; A back at 1000, B at 940, top={B,60}). -/
theorem claim_C4_amended :
    (∀ (s : SysState) (bidder auction_id : Nat) (amount : Int) (now : Nat)
        (auc : Auction),
      get_auction s auction_id = some auc → auc.is_closed = false →
      0 < amount → bidder ∉ s.banned →
      (min_required_after (currentAmt auc) auc.min_bid : Int) ≤ amount →
      amount ≤ get_balance s bidder →
      (∀ t, auc.top_bid = some t → t.user_id ≠ bidder) →
      (auction_bid s bidder auction_id amount now).1 =
        BidOutcome.accepted (auc.top_bid.map (fun t => (t.user_id, t.amount)))
          amount.toNat ∧
      get_balance (auction_bid s bidder auction_id amount now).2 bidder
        = get_balance s bidder - amount ∧
      (∀ t, auc.top_bid = some t →
        get_balance (auction_bid s bidder auction_id amount now).2 t.user_id
          = get_balance s t.user_id + t.amount) ∧
      (auc.auction_id = auction_id →
        get_auction (auction_bid s bidder auction_id amount now).2 auction_id =
          some (bidUpdatedAuc auc bidder amount.toNat now))) ∧
    ((auction_bid exState 7 1 50 10).1 = BidOutcome.accepted none 50 ∧
      get_balance exStateA 7 = 950 ∧
      get_auction exStateA 1 = some (bidUpdatedAuc exOpenAuc 7 50 10) ∧
      auction_bid exStateA 8 1 54 11 = (BidOutcome.tooLow 56, exStateA) ∧
      (auction_bid exStateA 8 1 60 12).1 = BidOutcome.accepted (some (7, 50)) 60 ∧
      get_balance exStateB 7 = 1000 ∧
      get_balance exStateB 8 = 940 ∧
      get_auction exStateB 1 = some (bidUpdatedAuc (bidUpdatedAuc exOpenAuc 7 50 10) 8 60 12)) := by
  constructor
  · intro s bidder auction_id amount now auc hga hcl hpos hban hreq hbal hne
    have hnr : ¬ amount < (min_required_after (currentAmt auc) auc.min_bid : Int) := by
      omega
    have hnb : ¬ get_balance s bidder < amount := by omega
    unfold auction_bid
    rw [if_neg (by omega), if_neg hban, hga]
    dsimp only
    rw [hcl]
    rw [if_neg (by simp), if_neg hnr, if_neg hnb]
    unfold applyBid
    cases htb : auc.top_bid with
    | none =>
      refine ⟨rfl, ?_, ?_, ?_⟩
      · dsimp only
        rw [get_balance_save_auction, get_balance_add_balance_self]
        ring
      · intro t ht
        exact absurd ht (by simp)
      · intro heq
        subst heq
        exact get_auction_save_auction_self _ _
    | some t0 =>
      have hne0 : t0.user_id ≠ bidder := hne t0 htb
      refine ⟨rfl, ?_, ?_, ?_⟩
      · dsimp only
        rw [get_balance_save_auction, get_balance_add_balance_self,
          get_balance_add_balance_ne s t0.user_id bidder (t0.amount : Int) hne0]
        ring
      · intro t ht
        have ht0 : t = t0 := (Option.some_injective _ ht).symm
        subst ht0
        dsimp only
        rw [get_balance_save_auction,
          get_balance_add_balance_ne _ bidder t.user_id (-amount) (fun h => hne0 h.symm),
          get_balance_add_balance_self]
      · intro heq
        subst heq
        exact get_auction_save_auction_self _ _
  · exact ⟨by decide, by decide, by decide, by decide, by decide, by decide,
      by decide, by decide⟩

/-- Witness for C4: the general part applied to the first scenario step —
user 7 bids 50 on the fresh auction #1 and is debited exactly 50. -/
theorem claim_C4_witness :
    get_balance (auction_bid exState 7 1 50 10).2 7 = get_balance exState 7 - 50 :=
  (claim_C4_amended.1 exState 7 1 50 10 exOpenAuc (by decide) (by decide)
    (by decide) (by decide) (by decide) (by decide)
    (fun t ht => Option.noConfusion ht)).2.1


/-- Counterexample to claim C4 as stated: the rejection of B's 54 after a top
bid of 50 reports `BidTooLow{56}`, not `BidTooLow{55}`. -/
theorem claim_C4_counterexample :
    (auction_bid exStateA 8 1 54 11).1 = BidOutcome.tooLow 56 ∧
    (auction_bid exStateA 8 1 54 11).1 ≠ BidOutcome.tooLow 55 := by
  decide

/-- Any outcome other than acceptance returns the state unchanged: every
check of `auction_bid` happens before its first mutation. -/
lemma auction_bid_not_accepted_eq (s : SysState) (bidder auction_id : Nat)
    (amount : Int) (now : Nat)
    (h : (auction_bid s bidder auction_id amount now).1.isAccepted = false) :
    (auction_bid s bidder auction_id amount now).2 = s := by
  unfold auction_bid at h ⊢
  by_cases h1 : amount ≤ 0
  · rw [if_pos h1]
  · rw [if_neg h1] at h ⊢
    by_cases h2 : bidder ∈ s.banned
    · rw [if_pos h2]
    · rw [if_neg h2] at h ⊢
      cases hga : get_auction s auction_id with
      | none => rfl
      | some auc =>
        rw [hga] at h
        dsimp only at h ⊢
        by_cases h3 : auc.is_closed = true
        · rw [if_pos h3]
        · rw [if_neg h3] at h ⊢
          by_cases h4 : amount < (min_required_after (currentAmt auc) auc.min_bid : Int)
          · rw [if_pos h4]
          · rw [if_neg h4] at h ⊢
            by_cases h5 : get_balance s bidder < amount
            · rw [if_pos h5]
            · rw [if_neg h5] at h
              exfalso
              unfold applyBid at h
              cases auc.top_bid <;> simp [BidOutcome.isAccepted] at h

/-- Claim C10 (confirmed).  Whenever `auction_bid` fails for any reason
(non-positive amount, banned bidder, missing or closed auction, bid below
the required minimum, insufficient balance), every balance, every inventory,
and every auction record — `top_bid` and `bids_received` included — is left
exactly as before the call. -/
theorem claim_C10 (s : SysState) (bidder auction_id : Nat) (amount : Int)
    (now : Nat)
    (h : (auction_bid s bidder auction_id amount now).1.isAccepted = false) :
    (auction_bid s bidder auction_id amount now).2.coins = s.coins ∧
    (auction_bid s bidder auction_id amount now).2.inventory = s.inventory ∧
    (auction_bid s bidder auction_id amount now).2.auctions = s.auctions := by
  rw [auction_bid_not_accepted_eq s bidder auction_id amount now h]
  exact ⟨rfl, rfl, rfl⟩

/-- Witness for C10: a zero-amount bid on auction #1 fails and changes
nothing. -/
theorem claim_C10_witness :
    (auction_bid exState 7 1 0 0).2.coins = exState.coins ∧
    (auction_bid exState 7 1 0 0).2.inventory = exState.inventory ∧
    (auction_bid exState 7 1 0 0).2.auctions = exState.auctions :=
  claim_C10 exState 7 1 0 0 (by decide)

/-! ## C7: cancellation -/

/-- An open auction holding a standing top bid of 500 by user 5. -/
def exBidAuc : Auction :=
  { auction_id := 2, pokemon := "Dragonite", unique_id := 2, created_by := 9,
    created_ts := 0, end_ts := 2000, min_bid := 10, top_bid := some ⟨5, 500, 1⟩,
    bids_received := 1, channel_id := 0, is_closed := false }

/-- A state holding auction #2 with its live timer. -/
def exCancelState : SysState :=
  { coins := [], inventory := [], auctions := [(2, exBidAuc)],
    next_aid := 11500, banned := [], tasks := [(2, TaskStatus.running)] }

/-- Claim C7 (confirmed).  For every OPEN auction, `auction_cancel` refunds
the standing top bid in full to that bidder, grants no item to anyone
(inventories are untouched), marks the auction CLOSED, and leaves no pending
(running) scheduler timer for it. -/
theorem claim_C7 (s : SysState) (auction_id : Nat) (auc : Auction)
    (hga : get_auction s auction_id = some auc) (hopen : auc.is_closed = false) :
    (auction_cancel s auction_id).1 = CancelOutcome.cancelled ∧
    (∀ t, auc.top_bid = some t →
      get_balance (auction_cancel s auction_id).2 t.user_id
        = get_balance s t.user_id + t.amount) ∧
    (auction_cancel s auction_id).2.inventory = s.inventory ∧
    (auc.auction_id = auction_id →
      get_auction (auction_cancel s auction_id).2 auction_id
        = some { auc with is_closed := true }) ∧
    taskLive (auction_cancel s auction_id).2.tasks auction_id = false := by
  unfold auction_cancel
  rw [hga]
  dsimp only
  rw [hopen]
  rw [if_neg (by simp)]
  cases htb : auc.top_bid with
  | none =>
    refine ⟨rfl, ?_, rfl, ?_, ?_⟩
    · intro t ht
      exact absurd ht (by simp)
    · intro heq
      subst heq
      rw [get_auction_set_tasks]
      exact get_auction_save_auction_self _ _
    · exact taskLive_cancelTask _ _
  | some t0 =>
    refine ⟨rfl, ?_, rfl, ?_, ?_⟩
    · intro t ht
      have ht0 : t = t0 := (Option.some_injective _ ht).symm
      subst ht0
      rw [get_balance_set_tasks, get_balance_save_auction, get_balance_add_balance_self]
    · intro heq
      subst heq
      rw [get_auction_set_tasks]
      exact get_auction_save_auction_self _ _
    · exact taskLive_cancelTask _ _

/-- Witness for C7: cancelling auction #2 with its standing bid of 500
restores exactly 500 to user 5 (1000 to 1500 via the refund) and leaves no
live timer. -/
theorem claim_C7_witness :
    get_balance (auction_cancel exCancelState 2).2 5
      = get_balance exCancelState 5 + 500 ∧
    taskLive (auction_cancel exCancelState 2).2.tasks 2 = false := by
  have h := claim_C7 exCancelState 2 exBidAuc (by decide) (by decide)
  exact ⟨h.2.1 ⟨5, 500, 1⟩ (by decide), h.2.2.2.2⟩

/-! ## C1: settlement is not self-guarding -/

/-- An open auction holding a standing top bid of 50 by user 7. -/
def exSettleAuc : Auction :=
  { auction_id := 3, pokemon := "Gholdengo", unique_id := 3, created_by := 9,
    created_ts := 0, end_ts := 100, min_bid := 10, top_bid := some ⟨7, 50, 5⟩,
    bids_received := 1, channel_id := 0, is_closed := false }

/-- A state holding only auction #3. -/
def exSettleState : SysState :=
  { coins := [], inventory := [], auctions := [(3, exSettleAuc)],
    next_aid := 11500, banned := [], tasks := [] }

/-- A closed auction, and a state holding it, for the caller-guard part. -/
def exClosedAuc : Auction :=
  { auction_id := 4, pokemon := "Pikachu", unique_id := 4, created_by := 9,
    created_ts := 0, end_ts := 100, min_bid := 10, top_bid := some ⟨7, 50, 5⟩,
    bids_received := 1, channel_id := 0, is_closed := true }

def exClosedState : SysState :=
  { coins := [], inventory := [], auctions := [(4, exClosedAuc)],
    next_aid := 11500, banned := [], tasks := [] }

/-- Claim C1 (corrected).  `settle_auction` itself performs no CLOSED check:
whenever a top bid stands it appends one more grant to the winner's
inventory, even if the auction is already closed — so two direct calls grant
twice.  The idempotence observed in practice lives in the callers:
`_wait_and_close` re-checks `is_closed` and no-ops, and `auction_close`
refuses with a warning. -/
theorem claim_C1_amended :
    (∀ (s : SysState) (auc : Auction) (now : Nat) (t : TopBid),
      auc.top_bid = some t →
      get_inventory (settle_auction s auc now) t.user_id
        = get_inventory s t.user_id ++ [⟨auc.pokemon, auc.unique_id, now⟩]) ∧
    (∀ (s : SysState) (auction_id now : Nat) (auc : Auction),
      get_auction s auction_id = some auc → auc.is_closed = true →
      waitCloseFire s auction_id now = s) ∧
    (∀ (s : SysState) (auction_id now : Nat) (auc : Auction),
      get_auction s auction_id = some auc → auc.is_closed = true →
      auction_close s auction_id now = (CloseOutcome.alreadyClosed, s)) := by
  refine ⟨?_, ?_, ?_⟩
  · intro s auc now t ht
    unfold settle_auction
    rw [ht]
    dsimp only
    rw [get_inventory_add_inventory_self]
    rfl
  · intro s auction_id now auc hga hcl
    unfold waitCloseFire
    rw [hga]
    dsimp only
    rw [hcl, if_pos rfl]
  · intro s auction_id now auc hga hcl
    unfold auction_close
    rw [hga]
    dsimp only
    rw [hcl, if_pos rfl]

/-- Witness for C1: firing the timer path on the already-closed auction #4 is
a no-op. -/
theorem claim_C1_witness : waitCloseFire exClosedState 4 30 = exClosedState :=
  claim_C1_amended.2.1 exClosedState 4 30 exClosedAuc (by decide) (by decide)

/-- Counterexample to claim C1 as stated: settling auction #3 twice (each
call fetching the stored record, as both call sites do) grants the item to
user 7 twice — `settle_auction` does not no-op on a CLOSED auction. -/
theorem claim_C1_counterexample :
    (get_inventory (settleById exSettleState 3 20) 7).length = 1 ∧
    (get_inventory (settleById (settleById exSettleState 3 20) 3 21) 7).length = 2 := by
  decide

/-! ## C2: recovery on process start -/

/-- One pass of `recoverStep` keeps an already-running timer running. -/
lemma recoverStep_preserves_running (cur : Nat) (ts : List (Nat × TaskStatus))
    (e : Nat × Auction) (aid : Nat)
    (h : lookupKV ts aid = some TaskStatus.running) :
    lookupKV (recoverStep cur ts e) aid = some TaskStatus.running := by
  unfold recoverStep
  split_ifs with hc
  · by_cases hk : e.2.auction_id = aid
    · rw [hk, lookupKV_setKV_self]
    · rw [lookupKV_setKV_ne _ _ _ _ hk]
      exact h
  · exact h

lemma foldl_recoverStep_preserves_running (cur : Nat) (l : List (Nat × Auction))
    (ts : List (Nat × TaskStatus)) (aid : Nat)
    (h : lookupKV ts aid = some TaskStatus.running) :
    lookupKV (l.foldl (recoverStep cur) ts) aid = some TaskStatus.running := by
  induction l generalizing ts with
  | nil => exact h
  | cons e l ih =>
    exact ih (recoverStep cur ts e) (recoverStep_preserves_running cur ts e aid h)

/-- After processing an entry that is open and still in the future, a running
timer stands under its auction id (freshly armed, or the pre-existing one). -/
lemma recoverStep_arms (cur : Nat) (ts : List (Nat × TaskStatus)) (e : Nat × Auction)
    (hopen : e.2.is_closed = false) (hfut : cur < e.2.end_ts) :
    lookupKV (recoverStep cur ts e) e.2.auction_id = some TaskStatus.running := by
  unfold recoverStep
  by_cases hl : taskLive ts e.2.auction_id = false
  · rw [if_pos ⟨hopen, hfut, hl⟩, lookupKV_setKV_self]
  · have hrun : lookupKV ts e.2.auction_id = some TaskStatus.running :=
      (taskLive_eq_true_iff ts e.2.auction_id).mp (by simpa using hl)
    split_ifs with hc
    · rw [lookupKV_setKV_self]
    · exact hrun

lemma foldl_recoverStep_arms (cur : Nat) (l : List (Nat × Auction)) :
    ∀ (ts : List (Nat × TaskStatus)) (k : Nat) (auc : Auction),
    (k, auc) ∈ l → auc.is_closed = false → cur < auc.end_ts →
    lookupKV (l.foldl (recoverStep cur) ts) auc.auction_id
      = some TaskStatus.running := by
  induction l with
  | nil =>
    intro ts k auc hmem
    exact absurd hmem (List.not_mem_nil _)
  | cons e l ih =>
    intro ts k auc hmem hopen hfut
    rcases List.mem_cons.mp hmem with he | hl
    · subst he
      exact foldl_recoverStep_preserves_running cur l _ _
        (recoverStep_arms cur ts (k, auc) hopen hfut)
    · exact ih (recoverStep cur ts e) k auc hl hopen hfut

/-- Claim C2 (corrected).  `recover_tasks` touches only the task table: no
balance, inventory, or auction record changes — in particular an OPEN auction
whose end time is already past is NOT settled during recovery, and gets no
timer either.  For every persisted OPEN auction whose end time is still in
the future, a running timer stands under its auction id afterwards (at most
one, since timers are keyed by id). -/
theorem claim_C2_amended (s : SysState) (cur : Nat) :
    (recover_tasks s cur).coins = s.coins ∧
    (recover_tasks s cur).inventory = s.inventory ∧
    (recover_tasks s cur).auctions = s.auctions ∧
    (∀ k auc, (k, auc) ∈ s.auctions → auc.is_closed = false → cur < auc.end_ts →
      lookupKV (recover_tasks s cur).tasks auc.auction_id
        = some TaskStatus.running) := by
  refine ⟨rfl, rfl, rfl, ?_⟩
  intro k auc hmem hopen hfut
  exact foldl_recoverStep_arms cur s.auctions s.tasks k auc hmem hopen hfut

/-- An OPEN auction whose end time (50) is already past at recovery time. -/
def exPastAuc : Auction :=
  { auction_id := 5, pokemon := "Mewtwo", unique_id := 5, created_by := 9,
    created_ts := 0, end_ts := 50, min_bid := 10, top_bid := some ⟨7, 40, 5⟩,
    bids_received := 1, channel_id := 0, is_closed := false }

/-- A freshly restarted process: auction #5 persisted as OPEN, no tasks. -/
def exPastState : SysState :=
  { coins := [], inventory := [], auctions := [(5, exPastAuc)],
    next_aid := 11500, banned := [], tasks := [] }

/-- An OPEN auction ending in the future, in a restarted process. -/
def exFutAuc : Auction :=
  { auction_id := 6, pokemon := "Lugia", unique_id := 6, created_by := 9,
    created_ts := 0, end_ts := 500, min_bid := 10, top_bid := none,
    bids_received := 0, channel_id := 0, is_closed := false }

def exFutState : SysState :=
  { coins := [], inventory := [], auctions := [(6, exFutAuc)],
    next_aid := 11500, banned := [], tasks := [] }

/-- Witness for C2: recovering at time 100 arms a running timer for the
future-ending OPEN auction #6. -/
theorem claim_C2_witness :
    lookupKV (recover_tasks exFutState 100).tasks 6 = some TaskStatus.running :=
  (claim_C2_amended exFutState 100).2.2.2 6 exFutAuc (by decide) (by decide)
    (by decide)

/-- Counterexample to claim C2 as stated: recovering at time 100 with the
overdue OPEN auction #5 (end time 50) settles nothing — the auction stays
OPEN, its winner receives no grant, and no timer is armed, because
`recover_tasks` only re-arms timers for auctions with `end_ts > now` and
skips overdue ones entirely. -/
theorem claim_C2_counterexample :
    (recover_tasks exPastState 100).tasks = [] ∧
    get_auction (recover_tasks exPastState 100) 5 = some exPastAuc ∧
    exPastAuc.is_closed = false ∧
    (recover_tasks exPastState 100).inventory = [] := by
  decide

/-! ## C9: active listing -/

/-- Claim C9 (confirmed).  `auction_list` is a permutation of the active
(non-CLOSED) auctions, sorted by ascending `end_ts`; membership is exactly
"stored and not closed". -/
theorem claim_C9 (s : SysState) :
    (auction_list s).Perm (active_auctions s) ∧
    List.Sorted aucLE (auction_list s) ∧
    (∀ a, a ∈ auction_list s ↔ a ∈ s.auctions.map Prod.snd ∧ a.is_closed = false) := by
  refine ⟨List.perm_insertionSort aucLE _, List.sorted_insertionSort aucLE _, ?_⟩
  intro a
  unfold auction_list
  rw [(List.perm_insertionSort aucLE (active_auctions s)).mem_iff]
  unfold active_auctions
  rw [List.mem_filter]
  simp

/-! ## C8: the top bid invariant -/

/-- Well-formed registry: every record sits under its own `auction_id` key,
as every creation/update path of the source guarantees (`save_auction` keys
by `auc["auction_id"]`). -/
def WFAuctions (s : SysState) : Prop :=
  ∀ k auc, lookupKV s.auctions k = some auc → auc.auction_id = k

/-- The C8 invariant: every standing top bid is positive and at least the
auction's `min_bid`. -/
def topOK (s : SysState) : Prop :=
  ∀ k auc, lookupKV s.auctions k = some auc → ∀ t, auc.top_bid = some t →
    auc.min_bid ≤ t.amount ∧ 1 ≤ t.amount

/-- The standing top amount of one auction, if any. -/
def topAmt (s : SysState) (aid : Nat) : Option Nat :=
  (get_auction s aid).bind (fun a => a.top_bid.map TopBid.amount)

/-- A bid request: bidder, auction id, amount, timestamp. -/
def BidReq : Type := Nat × Nat × Int × Nat

/-- Apply one bid request, keeping only the state. -/
def bidStep (s : SysState) (r : BidReq) : SysState :=
  (auction_bid s r.1 r.2.1 r.2.2.1 r.2.2.2).2

/-- Apply a sequence of bid requests in order. -/
def runBids (s : SysState) (reqs : List BidReq) : SysState :=
  reqs.foldl bidStep s

/-- `auction_bid` either leaves the state alone or, on acceptance, rewrites
exactly one registry key with the updated record; the acceptance guards are
recorded. -/
lemma auction_bid_state_cases (s : SysState) (bidder aid0 : Nat) (amount : Int)
    (now : Nat) :
    (auction_bid s bidder aid0 amount now).2 = s ∨
    ∃ auc, get_auction s aid0 = some auc ∧ auc.is_closed = false ∧
      0 < amount ∧
      (min_required_after (currentAmt auc) auc.min_bid : Int) ≤ amount ∧
      (auction_bid s bidder aid0 amount now).2.auctions =
        setKV s.auctions auc.auction_id (bidUpdatedAuc auc bidder amount.toNat now) := by
  unfold auction_bid
  by_cases h1 : amount ≤ 0
  · rw [if_pos h1]
    left
    rfl
  · rw [if_neg h1]
    by_cases h2 : bidder ∈ s.banned
    · rw [if_pos h2]
      left
      rfl
    · rw [if_neg h2]
      cases hga : get_auction s aid0 with
      | none =>
        left
        rfl
      | some auc =>
        dsimp only
        by_cases h3 : auc.is_closed = true
        · rw [if_pos h3]
          left
          rfl
        · rw [if_neg h3]
          by_cases h4 : amount < (min_required_after (currentAmt auc) auc.min_bid : Int)
          · rw [if_pos h4]
            left
            rfl
          · rw [if_neg h4]
            by_cases h5 : get_balance s bidder < amount
            · rw [if_pos h5]
              left
              rfl
            · rw [if_neg h5]
              right
              refine ⟨auc, rfl, Bool.not_eq_true _ ▸ h3, by omega, by omega, ?_⟩
              unfold applyBid bidUpdatedAuc
              cases auc.top_bid <;> rfl

/-- The required bid is at least `min_bid` whenever the standing top bid (if
any) already is. -/
lemma min_required_ge_min_bid (auc : Auction)
    (h : ∀ t, auc.top_bid = some t → auc.min_bid ≤ t.amount) :
    auc.min_bid ≤ min_required_after (currentAmt auc) auc.min_bid := by
  unfold currentAmt
  cases htb : auc.top_bid with
  | none => simp [min_required_after]
  | some t0 =>
    by_cases hz : t0.amount = 0
    · simp [min_required_after, hz]
    · unfold min_required_after
      rw [if_neg hz]
      exact le_trans (h t0 htb) (pyCeilMul11_ge t0.amount)

/-- One bid preserves well-formedness and the invariant, and never lowers a
standing top amount. -/
lemma bidStep_inv (s : SysState) (bidder aid0 : Nat) (amount : Int) (now : Nat)
    (hwf : WFAuctions s) (hok : topOK s) :
    WFAuctions (auction_bid s bidder aid0 amount now).2 ∧
    topOK (auction_bid s bidder aid0 amount now).2 ∧
    (∀ aid a, topAmt s aid = some a →
      ∃ b, topAmt (auction_bid s bidder aid0 amount now).2 aid = some b ∧ a ≤ b) := by
  rcases auction_bid_state_cases s bidder aid0 amount now with
    h | ⟨auc, hga, hcl, hpos, hreq, hauc⟩
  · rw [h]
    exact ⟨hwf, hok, fun aid a ha => ⟨a, ha, le_refl a⟩⟩
  · have haid : auc.auction_id = aid0 := hwf aid0 auc hga
    refine ⟨?_, ?_, ?_⟩
    · intro k auc3 hl
      rw [show (auction_bid s bidder aid0 amount now).2.auctions =
          setKV s.auctions auc.auction_id (bidUpdatedAuc auc bidder amount.toNat now)
          from hauc] at hl
      by_cases hk : auc.auction_id = k
      · rw [← hk, lookupKV_setKV_self] at hl
        obtain rfl := Option.some_injective _ hl
        exact hk
      · rw [lookupKV_setKV_ne _ _ _ _ hk] at hl
        exact hwf k auc3 hl
    · intro k auc3 hl t ht
      rw [show (auction_bid s bidder aid0 amount now).2.auctions =
          setKV s.auctions auc.auction_id (bidUpdatedAuc auc bidder amount.toNat now)
          from hauc] at hl
      by_cases hk : auc.auction_id = k
      · rw [← hk, lookupKV_setKV_self] at hl
        obtain rfl := Option.some_injective _ hl
        have ht2 : (⟨bidder, amount.toNat, now⟩ : TopBid) = t :=
          Option.some_injective _ ht
        have hge : auc.min_bid ≤ min_required_after (currentAmt auc) auc.min_bid :=
          min_required_ge_min_bid auc (fun t0 htb => (hok aid0 auc hga t0 htb).1)
        constructor
        · rw [← ht2]
          show auc.min_bid ≤ amount.toNat
          omega
        · rw [← ht2]
          show 1 ≤ amount.toNat
          omega
      · rw [lookupKV_setKV_ne _ _ _ _ hk] at hl
        exact hok k auc3 hl t ht
    · intro aid a ha
      unfold topAmt at ha ⊢
      rw [show get_auction (auction_bid s bidder aid0 amount now).2 aid =
          lookupKV (auction_bid s bidder aid0 amount now).2.auctions aid from rfl,
        hauc]
      by_cases hk : auc.auction_id = aid
      · have haid2 : aid = aid0 := by omega
        subst haid2
        rw [← hk, lookupKV_setKV_self]
        rw [show get_auction s aid = some auc from hk ▸ hga] at ha
        simp only [Option.some_bind] at ha
        obtain ⟨t0, htb0, hamt⟩ := Option.map_eq_some'.mp ha
        have hcur : currentAmt auc = a := by
          unfold currentAmt
          rw [htb0]
          exact hamt
        have hmr := min_required_after_ge (currentAmt auc) auc.min_bid
        refine ⟨amount.toNat, by simp [bidUpdatedAuc], by omega⟩
      · rw [lookupKV_setKV_ne _ _ _ _ hk]
        exact ⟨a, ha, le_refl a⟩

/-- Sequences of bids preserve everything `bidStep_inv` preserves. -/
lemma runBids_inv (reqs : List BidReq) : ∀ s : SysState, WFAuctions s → topOK s →
    WFAuctions (runBids s reqs) ∧ topOK (runBids s reqs) ∧
    (∀ aid a, topAmt s aid = some a →
      ∃ b, topAmt (runBids s reqs) aid = some b ∧ a ≤ b) := by
  induction reqs with
  | nil =>
    intro s hwf hok
    exact ⟨hwf, hok, fun aid a ha => ⟨a, ha, le_refl a⟩⟩
  | cons r reqs ih =>
    intro s hwf hok
    obtain ⟨hw1, ho1, hm1⟩ := bidStep_inv s r.1 r.2.1 r.2.2.1 r.2.2.2 hwf hok
    obtain ⟨hw2, ho2, hm2⟩ := ih (bidStep s r) hw1 ho1
    refine ⟨hw2, ho2, ?_⟩
    intro aid a ha
    obtain ⟨b, hb, hab⟩ := hm1 aid a ha
    obtain ⟨c, hc, hbc⟩ := hm2 aid b hb
    exact ⟨c, hc, le_trans hab hbc⟩

/-- Claim C8 (confirmed).  Starting from any well-formed state whose standing
top bids already respect their floors (in particular any state whose
auctions are freshly created, with no top bid), after any sequence of bid
requests every standing top bid is at least the auction's `min_bid`, and
extending the sequence never loses or lowers a standing top amount: once
set, `top_bid.amount` is monotonically non-decreasing. -/
theorem claim_C8 (s : SysState) (aid : Nat) (hwf : WFAuctions s) (hok : topOK s)
    (p q : List BidReq) :
    (∀ auc t, get_auction (runBids s p) aid = some auc → auc.top_bid = some t →
      auc.min_bid ≤ t.amount) ∧
    (∀ a, topAmt (runBids s p) aid = some a →
      ∃ b, topAmt (runBids s (p ++ q)) aid = some b ∧ a ≤ b) := by
  obtain ⟨hw1, ho1, _⟩ := runBids_inv p s hwf hok
  obtain ⟨_, _, hm2⟩ := runBids_inv q (runBids s p) hw1 ho1
  constructor
  · intro auc t hga ht
    exact (ho1 aid auc hga t ht).1
  · intro a ha
    rw [show runBids s (p ++ q) = runBids (runBids s p) q from List.foldl_append _ _ _ _]
    exact hm2 aid a ha

/-- Witness for C8: from the fresh auction #1 (min_bid 10), bidding 50 then
60 keeps the top amount at or above the first accepted 50. -/
theorem claim_C8_witness :
    ∃ b, topAmt (runBids exState ([((7 : Nat), (1 : Nat), (50 : Int), (10 : Nat))] ++
      [((8 : Nat), (1 : Nat), (60 : Int), (12 : Nat))])) 1 = some b ∧ 50 ≤ b := by
  have hwf : WFAuctions exState := by
    intro k auc hl
    simp only [exState, lookupKV] at hl
    split at hl
    · next h1 =>
      obtain rfl := Option.some_injective _ hl
      rw [← h1]
      rfl
    · exact absurd hl (by simp)
  have hok : topOK exState := by
    intro k auc hl t ht
    simp only [exState, lookupKV] at hl
    split at hl
    · next h1 =>
      obtain rfl := Option.some_injective _ hl
      exact absurd ht (by simp [exOpenAuc])
    · exact absurd hl (by simp)
  exact (claim_C8 exState 1 hwf hok _ _).2 50 (by decide)

end AuctionCog
